import Mathlib

/-!
Verification development for the SEBI RSS filtering pipeline
(`streamlit_app.py`).

The Python source is shallowly embedded below:

* `parse_pub_date` and its `datetime.strptime` calls become total Lean
  functions over `List Char`, one parser per concrete format string used by
  the source (the source only ever calls `strptime` with those five format
  strings plus the fallback, so no general `strptime` is needed).  Python
  exceptions become `Option`: a failing parse is `none`.
* naive `datetime` values are compared through their linearisation
  `naiveSeconds` (seconds on the proleptic Gregorian calendar, the same
  ordering as Python field-lexicographic comparison of valid datetimes);
  `datetime.utcnow()` and the local-timezone offset used by
  `astimezone(tz=None)` are explicit parameters.
* `re.search` of the patterns built in `is_keyword_present` (a word-boundary
  bracketed literal) becomes an explicit scan over all start positions with
  the regex word-boundary test.  Python `str.lower` and `\w` are modelled on
  their ASCII fragment.
* the Streamlit / HTTP / BeautifulSoup effects are abstracted: a fetch result
  is a `FetchOutcome`, the flattened document-order tag list stands for the
  parsed HTML, and `urljoin` is an opaque function parameter.
-/

namespace SebiRss

/-! ### Characters: ASCII fragment of Python `str.lower`, `\s`, `\w`, digits -/

/-- ASCII fragment of Python `str.lower` applied to one character. -/
def pyLower (c : Char) : Char :=
  if 65 ≤ c.toNat ∧ c.toNat ≤ 90 then Char.ofNat (c.toNat + 32) else c

/-- ASCII fragment of the regex class `\s` (also what `str.strip` removes). -/
def isPySpace (c : Char) : Bool :=
  c == ' ' || c == '\t' || c == '\n' || c == '\r' || c.toNat == 11 || c.toNat == 12

/-- ASCII fragment of the regex word-character class `\w` = [a-zA-Z0-9_]. -/
def isWordChar (c : Char) : Bool :=
  c.isAlphanum || c == '_'

/-- Numeric value of a decimal digit character. -/
def digitVal (c : Char) : Nat := c.toNat - 48

/-! ### The `datetime` values produced by `strptime`

`tz = none` models a naive datetime, `tz = some off` a timezone-aware one
with a fixed offset of `off` seconds. -/

structure PyDateTime where
  year : Nat
  month : Nat
  day : Nat
  hour : Nat
  minute : Nat
  second : Nat
  tz : Option Int
  deriving DecidableEq, Repr

def isLeapYear (y : Nat) : Bool :=
  y % 4 == 0 && (y % 100 != 0 || y % 400 == 0)

def daysInMonth (y m : Nat) : Nat :=
  if m = 2 then (if isLeapYear y then 29 else 28)
  else if m = 4 ∨ m = 6 ∨ m = 9 ∨ m = 11 then 30 else 31

/-- Validation performed by the `datetime` constructor (`MINYEAR = 1`,
`MAXYEAR = 9999`; seconds 60 and 61 let through by the `%S` regex are
rejected here, so a successful parse always has `second ≤ 59`). -/
def mkDateTime (y m d h mi s : Nat) (tz : Option Int) : Option PyDateTime :=
  if 1 ≤ y ∧ y ≤ 9999 ∧ 1 ≤ m ∧ m ≤ 12 ∧ 1 ≤ d ∧ d ≤ daysInMonth y m
      ∧ h ≤ 23 ∧ mi ≤ 59 ∧ s ≤ 59 then
    some ⟨y, m, d, h, mi, s, tz⟩
  else none

/-- Cumulative day counts before each month of a common year
(`date.toordinal` helper). -/
def daysBeforeMonth (m : Nat) : Nat :=
  [0, 0, 31, 59, 90, 120, 151, 181, 212, 243, 273, 304, 334].getD m 0

/-- Python `date.toordinal`: day number on the proleptic Gregorian calendar,
with 0001-01-01 as day 1. -/
def toOrdinal (y m d : Nat) : Int :=
  365 * ((y : Int) - 1) + ((y : Int) - 1) / 4 - ((y : Int) - 1) / 100
    + ((y : Int) - 1) / 400 + (daysBeforeMonth m : Int)
    + (if 2 < m ∧ isLeapYear y then 1 else 0) + (d : Int)

/-- Linearisation of a datetime read field-wise: seconds since a fixed
origin.  On valid datetimes this ordering agrees with the
field-lexicographic comparison Python uses for naive datetimes. -/
def naiveSeconds (dt : PyDateTime) : Int :=
  toOrdinal dt.year dt.month dt.day * 86400
    + (dt.hour : Int) * 3600 + (dt.minute : Int) * 60 + (dt.second : Int)

/-! ### Token parsers for the concrete `strptime` format strings

Each parser consumes a prefix of the character list and returns the parsed
value with the rest, or `none` (= the Python `ValueError` caught by the
source).  `\d` runs of length 1-2 are taken greedily; for the format
strings used here (where such a run is always followed by a non-digit
delimiter or the end of the pattern) this agrees with the backtracking
regexes of `_strptime`. -/

def p1or2 : List Char → Option (Nat × List Char)
  | [] => none
  | [c] => if c.isDigit then some (digitVal c, []) else none
  | c1 :: c2 :: rest =>
    if c1.isDigit then
      if c2.isDigit then some (digitVal c1 * 10 + digitVal c2, rest)
      else some (digitVal c1, c2 :: rest)
    else none

def p2 : List Char → Option (Nat × List Char)
  | c1 :: c2 :: rest =>
    if c1.isDigit && c2.isDigit then
      some (digitVal c1 * 10 + digitVal c2, rest)
    else none
  | _ => none

def p4 : List Char → Option (Nat × List Char)
  | c1 :: c2 :: c3 :: c4 :: rest =>
    if c1.isDigit && c2.isDigit && c3.isDigit && c4.isDigit then
      some (digitVal c1 * 1000 + digitVal c2 * 100 + digitVal c3 * 10 + digitVal c4, rest)
    else none
  | _ => none

/-- A literal character of the format string. -/
def pLit (c : Char) : List Char → Option (List Char)
  | [] => none
  | x :: rest => if x = c then some rest else none

/-- Whitespace in the format string is compiled to the regex `\s+`. -/
def pSpaces1 : List Char → Option (List Char)
  | [] => none
  | c :: rest => if isPySpace c then some (rest.dropWhile isPySpace) else none

/-- Case-insensitive match of one three-letter name from `names`, returning
its index (used for `%a` and `%b`; all C-locale abbreviated names have
three letters). -/
def pName3 (names : List (List Char)) : List Char → Option (Nat × List Char)
  | c1 :: c2 :: c3 :: rest =>
    match names.findIdx? (· == [pyLower c1, pyLower c2, pyLower c3]) with
    | some i => some (i, rest)
    | none => none
  | _ => none

def weekdayNames : List (List Char) :=
  ["mon", "tue", "wed", "thu", "fri", "sat", "sun"].map String.toList

def monthNames : List (List Char) :=
  ["jan", "feb", "mar", "apr", "may", "jun",
   "jul", "aug", "sep", "oct", "nov", "dec"].map String.toList

/-- Consume up to `n` further digits (greedy); helper for the discarded
sub-second fraction of a `%z` offset. -/
def dropDigits : Nat → List Char → List Char
  | 0, cs => cs
  | _ + 1, [] => []
  | n + 1, c :: cs => if c.isDigit then dropDigits n cs else c :: cs

/-- Optional fraction of the `%z` seconds: a dot followed by one to six
digits.  The fractional microseconds are below the one-second resolution of
the model and are discarded (they are never compared by the source). -/
def pZOptFrac (cs : List Char) : List Char :=
  match cs with
  | '.' :: c :: rest => if c.isDigit then dropDigits 5 rest else cs
  | _ => cs

/-- Optional seconds group of a `%z` offset: an optional colon followed by
two digits and an optional fraction; consumes nothing when absent. -/
def pZOptSeconds (cs : List Char) : Nat × List Char :=
  match cs with
  | ':' :: c1 :: c2 :: rest =>
    if c1.isDigit && c2.isDigit then
      (digitVal c1 * 10 + digitVal c2, pZOptFrac rest)
    else (0, cs)
  | c1 :: c2 :: rest =>
    if c1.isDigit && c2.isDigit then
      (digitVal c1 * 10 + digitVal c2, pZOptFrac rest)
    else (0, cs)
  | _ => (0, cs)

/-- Numeric part of `%z` after the sign: two hour digits, an optional
colon, two minute digits, an optional seconds group.  The bound
`|off| < 24h` is the check of the `timezone` constructor. -/
def pZNum (neg : Bool) (cs : List Char) : Option (Int × List Char) := do
  let (h, cs) ← p2 cs
  let cs := match cs with
    | ':' :: rest => rest
    | _ => cs
  let (m, cs) ← p2 cs
  let (s, cs) := pZOptSeconds cs
  let off : Int := (h : Int) * 3600 + (m : Int) * 60 + (s : Int)
  let off := if neg then -off else off
  if off.natAbs < 86400 then some (off, cs) else none

/-- The `%z` directive: `Z` (case-sensitive) or a signed offset. -/
def pZ : List Char → Option (Int × List Char)
  | 'Z' :: rest => some (0, rest)
  | '+' :: rest => pZNum false rest
  | '-' :: rest => pZNum true rest
  | _ => none

/-! ### The five format strings tried by `parse_pub_date` -/

/-- The "%a, %d %b %Y" part of the RFC-822 style format: weekday name,
comma, day, month name, four-digit year.  Returns (day, month index, year,
rest). -/
def pRfcDate (cs0 : List Char) : Option (Nat × Nat × Nat × List Char) := do
  let (_, cs) ← pName3 weekdayNames cs0
  let cs ← pLit ',' cs
  let cs ← pSpaces1 cs
  let (d, cs) ← p1or2 cs
  let cs ← pSpaces1 cs
  let (m0, cs) ← pName3 monthNames cs
  let cs ← pSpaces1 cs
  let (y, cs) ← p4 cs
  pure (d, m0, y, cs)

/-- The "%H:%M:%S" part.  Returns (hour, minute, second, rest). -/
def pHms (cs0 : List Char) : Option (Nat × Nat × Nat × List Char) := do
  let (h, cs) ← p1or2 cs0
  let cs ← pLit ':' cs
  let (mi, cs) ← p1or2 cs
  let cs ← pLit ':' cs
  let (s, cs) ← p1or2 cs
  pure (h, mi, s, cs)

/-- The "%d %b, %Y" part shared by the second and third formats.  Returns
(day, month index, year, rest). -/
def pDmyDate (cs0 : List Char) : Option (Nat × Nat × Nat × List Char) := do
  let (d, cs) ← p1or2 cs0
  let cs ← pSpaces1 cs
  let (m0, cs) ← pName3 monthNames cs
  let cs ← pLit ',' cs
  let cs ← pSpaces1 cs
  let (y, cs) ← p4 cs
  pure (d, m0, y, cs)

/-- Format "%a, %d %b %Y %H:%M:%S %z". -/
def pFmtA (cs0 : List Char) : Option (PyDateTime × List Char) := do
  let (d, m0, y, cs) ← pRfcDate cs0
  let cs ← pSpaces1 cs
  let (h, mi, s, cs) ← pHms cs
  let cs ← pSpaces1 cs
  let (off, cs) ← pZ cs
  let dt ← mkDateTime y (m0 + 1) d h mi s (some off)
  pure (dt, cs)

/-- Format "%d %b, %Y %z". -/
def pFmtB (cs0 : List Char) : Option (PyDateTime × List Char) := do
  let (d, m0, y, cs) ← pDmyDate cs0
  let cs ← pSpaces1 cs
  let (off, cs) ← pZ cs
  let dt ← mkDateTime y (m0 + 1) d 0 0 0 (some off)
  pure (dt, cs)

/-- Format "%d %b, %Y". -/
def pFmtC (cs0 : List Char) : Option (PyDateTime × List Char) := do
  let (d, m0, y, cs) ← pDmyDate cs0
  let dt ← mkDateTime y (m0 + 1) d 0 0 0 none
  pure (dt, cs)

/-- Format "%Y-%m-%d". -/
def pFmtD (cs0 : List Char) : Option (PyDateTime × List Char) := do
  let (y, cs) ← p4 cs0
  let cs ← pLit '-' cs
  let (m, cs) ← p1or2 cs
  let cs ← pLit '-' cs
  let (d, cs) ← p1or2 cs
  let dt ← mkDateTime y m d 0 0 0 none
  pure (dt, cs)

/-- Run one format parser on a whole string: `datetime.strptime` raises
"unconverted data remains" unless the match reaches the end. -/
def runFmt (p : List Char → Option (PyDateTime × List Char)) (s : String) :
    Option PyDateTime :=
  match p s.toList with
  | some (dt, []) => some dt
  | _ => none

def strptimeFmtA (s : String) : Option PyDateTime := runFmt pFmtA s

def strptimeFmtB (s : String) : Option PyDateTime := runFmt pFmtB s

def strptimeFmtC (s : String) : Option PyDateTime := runFmt pFmtC s

def strptimeFmtD (s : String) : Option PyDateTime := runFmt pFmtD s

/-! ### `parse_pub_date` -/

/-- The list `fmts` of the source; the first entry appears twice there. -/
def fmtParsers : List (String → Option PyDateTime) :=
  [strptimeFmtA, strptimeFmtA, strptimeFmtB, strptimeFmtC, strptimeFmtD]

/-- The `for fmt in fmts: try ... except: continue` loop. -/
def firstSuccess (ps : List (String → Option PyDateTime)) (s : String) :
    Option PyDateTime :=
  match ps with
  | [] => none
  | p :: rest =>
    match p s with
    | some dt => some dt
    | none => firstSuccess rest s

/-- Python `s.split("+")[0]`: the part of the string before the first plus
sign (the whole string when there is none). -/
def pySplitPlusHead (s : String) : String :=
  String.mk (s.toList.takeWhile (· ≠ '+'))

/-- Python `s.strip()` (ASCII whitespace fragment). -/
def pyStrip (s : String) : String :=
  String.mk (((s.toList.dropWhile isPySpace).reverse.dropWhile isPySpace).reverse)

/-- The fallback of `parse_pub_date`: remove a trailing "+..." zone part and
retry with "%d %b, %Y". -/
def strptimeFallback (s : String) : Option PyDateTime :=
  strptimeFmtC (pyStrip (pySplitPlusHead s))

/-- `parse_pub_date` of the source: first success over `fmts`, then the
fallback, then `None`.  Total by construction — the embedded function can
never raise. -/
def parse_pub_date (s : String) : Option PyDateTime :=
  match firstSuccess fmtParsers s with
  | some dt => some dt
  | none => strptimeFallback s

/-- Normalisation applied by `filter_items` before comparing:
`dt.astimezone(tz=None).replace(tzinfo=None)` for aware values (conversion
to the naive local time; `localOff` is the local-zone offset in seconds),
the identity for naive ones.  The result is kept as its `naiveSeconds`
linearisation. -/
def normalizeDt (localOff : Int) (dt : PyDateTime) : Int :=
  match dt.tz with
  | none => naiveSeconds dt
  | some off => naiveSeconds dt - off + localOff

/-! ### `KEYWORDS` and `is_keyword_present` -/

def KEYWORDS : List String :=
  ["circular", "master circular", "regulation", "regulations",
   "amendment", "amendments"]

/-- Word-character test of the text position `i` (`false` beyond the
ends, as for the regex `\b`). -/
def charAtIsWord (t : List Char) (i : Nat) : Bool :=
  match t[i]? with
  | some c => isWordChar c
  | none => false

/-- The regex `\b` at position `i`: word-ness changes between the previous
position and this one. -/
def boundaryAt (t : List Char) (i : Nat) : Bool :=
  (if i = 0 then false else charAtIsWord t (i - 1)) != charAtIsWord t i

/-- The pattern built by the source, a word-boundary bracketed escaped
literal, matched at start position `i`. -/
def matchWordAt (t w : List Char) (i : Nat) : Bool :=
  boundaryAt t i && w.isPrefixOf (t.drop i) && boundaryAt t (i + w.length)

/-- `re.search`: some start position matches. -/
def searchWord (t w : List Char) : Bool :=
  (List.range (t.length + 1)).any fun i => matchWordAt t w i

/-- Python `str.lower` (ASCII fragment). -/
def pyLowerStr (s : String) : String :=
  String.mk (s.toList.map pyLower)

/-- `is_keyword_present` of the source: lowercase the text, then search
each keyword with word boundaries. -/
def is_keyword_present (text : String) : Bool :=
  let textLower := text.toList.map pyLower
  KEYWORDS.any fun w => searchWord textLower w.toList

/-! ### `parse_sebi_feed` over an XML element tree -/

/-- An XML element as `xml.etree.ElementTree` exposes it: tag, text
content (absent for an empty element) and child elements in document
order. -/
inductive XmlElem : Type where
  | node : String → Option String → List XmlElem → XmlElem

def XmlElem.tag : XmlElem → String
  | .node t _ _ => t

def XmlElem.text : XmlElem → Option String
  | .node _ x _ => x

def XmlElem.children : XmlElem → List XmlElem
  | .node _ _ c => c

/-- `Element.findtext(tag, default)`: the text of the first direct child
with this tag (the empty string when that element has no text), or the
default when there is none. -/
def findtext (e : XmlElem) (tag dflt : String) : String :=
  match e.children.find? (fun c => c.tag == tag) with
  | some c => c.text.getD ""
  | none => dflt

/-- The selection `root.findall("./channel/item")`: item children of
channel children of the root, in document order. -/
def itemsOf (root : XmlElem) : List XmlElem :=
  (root.children.filter (fun c => c.tag == "channel")).flatMap
    (fun ch => ch.children.filter (fun c => c.tag == "item"))

/-- One feed record as built in the loop body of `parse_sebi_feed`. -/
structure Item where
  title : String
  link : String
  pub_date : String
  description : String
  deriving DecidableEq, Repr

def itemToRecord (e : XmlElem) : Item :=
  { title := findtext e "title" ""
    link := findtext e "link" ""
    pub_date := findtext e "pubDate" ""
    description := findtext e "description" "" }

/-- `parse_sebi_feed` on an already well-formed document (`ET.fromstring`
failure on malformed bytes is outside the tree model). -/
def parse_sebi_feed (root : XmlElem) : List Item :=
  (itemsOf root).map itemToRecord

/-! ### `filter_items` (value level) -/

/-- A member of the `filtered` list: the copied record plus the derived
`pub_date_obj` field, kept as the `naiveSeconds` linearisation of the
normalised naive datetime. -/
structure FilteredItem where
  title : String
  link : String
  pub_date : String
  description : String
  pub_date_obj : Int
  deriving DecidableEq, Repr

/-- One iteration of the `for item in items` loop: `None`-date skip,
timezone normalisation, `dt < start_date` skip, keyword test on title or
description, then the copied record with `pub_date_obj`. -/
def keepItem (startSec localOff : Int) (it : Item) : Option FilteredItem :=
  match parse_pub_date it.pub_date with
  | none => none
  | some dt =>
    let sec := normalizeDt localOff dt
    if sec < startSec then none
    else if is_keyword_present it.title || is_keyword_present it.description then
      some ⟨it.title, it.link, it.pub_date, it.description, sec⟩
    else none

/-- `filtered.sort(key=..., reverse=True)`: a stable sort, newest first
(insertion sort with the flipped non-strict order is stable the same
way). -/
def sortByDateDesc (l : List FilteredItem) : List FilteredItem :=
  List.insertionSort (fun a b => b.pub_date_obj ≤ a.pub_date_obj) l

/-- `filter_items`.  `nowSec` is the linearisation of the naive
`datetime.utcnow()`, `localOff` the local-zone offset used by
`astimezone(tz=None)`; `weeks` defaults to 3 at the call sites. -/
def filter_items (items : List Item) (nowSec localOff : Int) (weeks : Nat) :
    List FilteredItem :=
  let startSec := nowSec - (weeks : Int) * 604800
  sortByDateDesc (items.filterMap (keepItem startSec localOff))

/-! ### `extract_pdf_from_iframe` and the PDF decision of `main` -/

/-- One parsed HTML tag as the discoverer inspects it: element name and
optional `src` attribute, listed in document order. -/
structure HtmlTag where
  name : String
  src : Option String
  deriving DecidableEq, Repr

/-- Result of `requests.get` + `raise_for_status` + HTML parsing: either
any raised exception, or the flattened tag list of the page. -/
inductive FetchOutcome : Type where
  | failure : FetchOutcome
  | success : List HtmlTag → FetchOutcome

/-- `extract_pdf_from_iframe`: on any exception `None`; otherwise
`soup.find("iframe", src=True)` is the first iframe carrying a `src`
attribute, resolved with `urljoin` (passed in as an opaque library
function); `None` when there is no such tag. -/
def extract_pdf_from_iframe (join : String → String → String)
    (pageUrl : String) (outcome : FetchOutcome) : Option String :=
  match outcome with
  | .failure => none
  | .success tags =>
    match tags.find? (fun t => t.name == "iframe" && t.src.isSome) with
    | some t => some (join pageUrl (t.src.getD ""))
    | none => none

/-- Python `s.lower().endswith(suf)` as used on the discovered URL. -/
def pyEndsWith (s suf : String) : Bool :=
  let l := s.toList
  let p := suf.toList
  decide (l.drop (l.length - p.length) = p)

/-- The caller-side test in `main`:
`if pdf_url and pdf_url.lower().endswith(".pdf")` — `None` and the empty
string are falsy, otherwise the whole lowercased URL string must end in
".pdf". -/
def pdfLinkAccepted : Option String → Bool
  | none => false
  | some u => (u != "") && pyEndsWith (pyLowerStr u) ".pdf"

/-- Stated from the claim for comparison with `pdfLinkAccepted`: the path
component of a URL, read as what stands after the authority (the part
following "://" up to the first slash) and before any query or fragment. -/
def specUrlPath (u : String) : String :=
  let cs := afterSchemeSep u.toList
  String.mk ((cs.dropWhile (fun c => !(c == '/'))).takeWhile
    (fun c => !(c == '?') && !(c == '#')))
where
  afterSchemeSep : List Char → List Char
    | ':' :: '/' :: '/' :: rest => rest
    | _ :: rest => afterSchemeSep rest
    | [] => []

/-- Stated from the claim: the discovered URL is a real PDF link when its
path component ends in ".pdf". -/
def specPathEndsPdf (u : String) : Bool :=
  pyEndsWith (specUrlPath u) ".pdf"

/-! ### `filter_items` (store level, for the frame property)

To talk about mutation at all, the dictionaries are given identities: the
heap is a list of dictionaries and an item is a reference (an index) into
it.  `item.copy()` allocates a fresh cell at the end of the heap; the
`item_cpy["pub_date_obj"] = dt` assignment writes only to that fresh
cell.  The Lean functions pass the heap explicitly. -/

/-- A Python dict value of this program: a feed string or the derived
datetime (kept as its linearisation). -/
inductive DVal : Type where
  | vstr : String → DVal
  | vdt : Int → DVal
  deriving DecidableEq, Repr

/-- A dictionary: key/value pairs in insertion order. -/
abbrev PyDict := List (String × DVal)

/-- String lookup (the records built by `parse_sebi_feed` always carry
their four string keys). -/
def dictGetStr (d : PyDict) (k : String) : String :=
  match d.find? (fun p => p.1 == k) with
  | some (_, .vstr v) => v
  | _ => ""

/-- Lookup of the derived datetime key, used as the sort key. -/
def dictGetInt (d : PyDict) (k : String) : Int :=
  match d.find? (fun p => p.1 == k) with
  | some (_, .vdt v) => v
  | _ => 0

/-- Dict assignment: overwrite in place when the key exists, otherwise
append (Python insertion order). -/
def dictSet (d : PyDict) (k : String) (v : DVal) : PyDict :=
  if d.any (fun p => p.1 == k) then
    d.map (fun p => if p.1 == k then (k, v) else p)
  else d ++ [(k, v)]

/-- The `for item in items` loop of `filter_items` over references: reads
the dict of each reference, and for a kept record allocates the copy with
the added `pub_date_obj` key at the end of the heap.  Returns the
references collected in `filtered` together with the final heap. -/
def filterLoop (startSec localOff : Int) :
    List Nat → List PyDict → List Nat × List PyDict
  | [], σ => ([], σ)
  | r :: rest, σ =>
    let d := σ.getD r []
    match parse_pub_date (dictGetStr d "pub_date") with
    | none => filterLoop startSec localOff rest σ
    | some dt =>
      let sec := normalizeDt localOff dt
      if sec < startSec then filterLoop startSec localOff rest σ
      else if is_keyword_present (dictGetStr d "title")
          || is_keyword_present (dictGetStr d "description") then
        let σ2 := σ ++ [dictSet d "pub_date_obj" (.vdt sec)]
        let res := filterLoop startSec localOff rest σ2
        (σ.length :: res.1, res.2)
      else filterLoop startSec localOff rest σ

/-- Store-level `filter_items`: the loop, then the in-place sort of the
`filtered` reference list by the dereferenced `pub_date_obj`, newest
first. -/
def filter_items_st (refs : List Nat) (σ : List PyDict)
    (nowSec localOff : Int) (weeks : Nat) : List Nat × List PyDict :=
  let startSec := nowSec - (weeks : Int) * 604800
  let res := filterLoop startSec localOff refs σ
  (List.insertionSort
    (fun a b => dictGetInt (res.2.getD b []) "pub_date_obj"
      ≤ dictGetInt (res.2.getD a []) "pub_date_obj") res.1, res.2)

/-! ## Theorems -/

/-! ### Helper lemmas on characters and word search -/

theorem charOfNatLower_toNat {n : Nat} (h1 : 65 ≤ n) (h2 : n ≤ 90) :
    (Char.ofNat (n + 32)).toNat = n + 32 := by
  have hv : (n + 32).isValidChar := by
    left
    omega
  simp only [Char.ofNat, hv, dif_pos, Char.ofNatAux]
  rfl

theorem pyLower_idem (c : Char) : pyLower (pyLower c) = pyLower c := by
  by_cases h : 65 ≤ c.toNat ∧ c.toNat ≤ 90
  · have h1 : pyLower c = Char.ofNat (c.toNat + 32) := by
      unfold pyLower
      rw [if_pos h]
    have ht : (Char.ofNat (c.toNat + 32)).toNat = c.toNat + 32 :=
      charOfNatLower_toNat h.1 h.2
    have hneg : ¬(65 ≤ (Char.ofNat (c.toNat + 32)).toNat
        ∧ (Char.ofNat (c.toNat + 32)).toNat ≤ 90) := by
      rw [ht]
      omega
    rw [h1]
    unfold pyLower
    rw [if_neg hneg]
  · have h1 : pyLower c = c := by
      unfold pyLower
      rw [if_neg h]
    rw [h1, h1]

theorem map_pyLower_idem (l : List Char) :
    (l.map pyLower).map pyLower = l.map pyLower := by
  rw [List.map_map]
  congr 1
  funext c
  exact pyLower_idem c

/-- `re.search` finds a match exactly when some start position matches. -/
theorem searchWord_iff (t w : List Char) :
    searchWord t w = true ↔ ∃ i, i ≤ t.length ∧ matchWordAt t w i = true := by
  unfold searchWord
  rw [List.any_eq_true]
  constructor
  · rintro ⟨i, hi, hm⟩
    exact ⟨i, Nat.lt_succ_iff.mp (List.mem_range.mp hi), hm⟩
  · rintro ⟨i, hi, hm⟩
    exact ⟨i, List.mem_range.mpr (Nat.lt_succ_iff.mpr hi), hm⟩

/-! ### C2: case-insensitive whole-word keyword matching -/

/-- **C2.** The keyword test lowercases its input (so it is insensitive to
case: pre-lowercasing the text changes nothing), and it matches exactly
when some keyword occurs at a position with regex word boundaries on both
sides.  Concretely: "deregulationship" (which contains "regulation" and
"regulations" as plain substrings) does not match, "remaster circulars"
(which contains "master circular" and "circular" as plain substrings) does
not match, and a capitalised "Master Circular on XYZ" does. -/
theorem is_keyword_present_whole_word :
    (∀ text : String, is_keyword_present (pyLowerStr text) = is_keyword_present text)
    ∧ (∀ text : String, is_keyword_present text = true ↔
        ∃ w ∈ KEYWORDS, ∃ i, i ≤ (text.toList.map pyLower).length ∧
          matchWordAt (text.toList.map pyLower) w.toList i = true)
    ∧ is_keyword_present "deregulationship" = false
    ∧ is_keyword_present "remaster circulars" = false
    ∧ is_keyword_present "Master Circular on XYZ" = true := by
  refine ⟨?_, ?_, by decide, by decide, by decide⟩
  · intro text
    have hmk : (pyLowerStr text).toList = text.toList.map pyLower := rfl
    simp only [is_keyword_present, hmk, map_pyLower_idem]
  · intro text
    simp only [is_keyword_present]
    rw [List.any_eq_true]
    constructor
    · rintro ⟨w, hw, hs⟩
      obtain ⟨i, hi, hm⟩ := (searchWord_iff _ _).mp hs
      exact ⟨w, hw, i, hi, hm⟩
    · rintro ⟨w, hw, i, hi, hm⟩
      exact ⟨w, hw, (searchWord_iff _ _).mpr ⟨i, hi, hm⟩⟩

/-! ### C10: the phrase keyword is redundant -/

/-- Stated from the claim for comparison: the keyword list without the
"master circular" phrase. -/
def KEYWORDS_single : List String :=
  ["circular", "regulation", "regulations", "amendment", "amendments"]

/-- Stated from the claim for comparison: the keyword filter over the
five single-word keywords only. -/
def is_keyword_present_single (text : String) : Bool :=
  let textLower := text.toList.map pyLower
  KEYWORDS_single.any fun w => searchWord textLower w.toList

/-- A whole-phrase match of "master circular" contains a whole-word match
of "circular" starting 7 characters later. -/
theorem matchWordAt_phrase_circular (t : List Char) (i : Nat)
    (h : matchWordAt t ("master circular".toList) i = true) :
    matchWordAt t ("circular".toList) (i + 7) = true := by
  unfold matchWordAt at h
  rw [Bool.and_eq_true, Bool.and_eq_true] at h
  obtain ⟨⟨_, h2⟩, h3⟩ := h
  rw [ List.isPrefixOf_iff_prefix] at h2
  obtain ⟨tail, htail⟩ := h2
  have hdrop : t.drop (i + 7) = "circular".toList ++ tail := by
    rw [← List.drop_drop 7 i t, ← htail]
    rfl
  have h6 : t[i + 6]? = some ' ' := by
    rw [← List.getElem?_drop t i 6, ← htail]
    rfl
  have h7 : t[i + 7]? = some 'c' := by
    rw [← List.getElem?_drop t i 7, ← htail]
    rfl
  have hb7 : boundaryAt t (i + 7) = true := by
    unfold boundaryAt charAtIsWord
    rw [if_neg (by omega : ¬(i + 7 = 0))]
    have h67 : i + 7 - 1 = i + 6 := by omega
    rw [h67, h6, h7]
    rfl
  have hpre : ("circular".toList).isPrefixOf (t.drop (i + 7)) = true := by
    rw [ List.isPrefixOf_iff_prefix]
    exact ⟨tail, hdrop.symm⟩
  have hlen15 : ("master circular".toList).length = 15 := rfl
  rw [hlen15] at h3
  unfold matchWordAt
  have hlen8 : ("circular".toList).length = 8 := rfl
  rw [hlen8]
  have h158 : i + 7 + 8 = i + 15 := by omega
  rw [h158, hb7, hpre, h3]
  rfl

/-- Lifting the previous lemma through `re.search`. -/
theorem searchWord_phrase_circular (t : List Char)
    (h : searchWord t ("master circular".toList) = true) :
    searchWord t ("circular".toList) = true := by
  obtain ⟨i, hi, hm⟩ := (searchWord_iff _ _).mp h
  have hm2 := matchWordAt_phrase_circular t i hm
  have hb : i + 15 ≤ t.length := by
    unfold matchWordAt at hm
    rw [Bool.and_eq_true, Bool.and_eq_true] at hm
    have hp := hm.1.2
    rw [ List.isPrefixOf_iff_prefix] at hp
    have hlen := hp.length_le
    rw [List.length_drop] at hlen
    have h15 : ("master circular".toList).length = 15 := rfl
    rw [h15] at hlen
    omega
  exact (searchWord_iff _ _).mpr ⟨i + 7, by omega, hm2⟩

/-- **C10.** The keyword filter gives the same answer with or without the
"master circular" phrase in the keyword list: any whole-phrase match
contains a whole-word match of "circular", which is also a keyword. -/
theorem keyword_phrase_redundant (text : String) :
    is_keyword_present text = is_keyword_present_single text := by
  unfold is_keyword_present is_keyword_present_single KEYWORDS KEYWORDS_single
  cases h : searchWord (text.toList.map pyLower) ("master circular".toList) with
  | false =>
    simp [List.any_cons, List.any_nil] at h ⊢
    simp [h]
  | true =>
    have hc := searchWord_phrase_circular _ h
    simp [List.any_cons, List.any_nil] at h hc ⊢
    simp [h, hc]

/-! ### C4: ordered format attempts, `None` on no match, never raises -/

/-- **C4.** `parse_pub_date` is the first success of the ordered format
attempts (the RFC-822 style format is listed twice in the source, so a
single occurrence suffices), finished by the truncate-and-retry fallback,
and it returns `none` exactly when every supported attempt fails.  The
embedded function is total: the Python exceptions are all caught and
surface only as `none`. -/
theorem parse_pub_date_first_success (s : String) :
    parse_pub_date s =
      ((((strptimeFmtA s).orElse fun _ => strptimeFmtB s).orElse fun _ =>
          strptimeFmtC s).orElse fun _ => strptimeFmtD s).orElse
        (fun _ => strptimeFallback s)
    ∧ (parse_pub_date s = none ↔
        strptimeFmtA s = none ∧ strptimeFmtB s = none ∧ strptimeFmtC s = none
          ∧ strptimeFmtD s = none ∧ strptimeFallback s = none) := by
  cases hA : strptimeFmtA s <;> cases hB : strptimeFmtB s <;>
    cases hC : strptimeFmtC s <;> cases hD : strptimeFmtD s <;>
      cases hF : strptimeFallback s <;>
        simp [parse_pub_date, firstSuccess, fmtParsers, Option.orElse,
          hA, hB, hC, hD, hF]

/-! ### C9: the fallback accepts strings no fixed format accepts -/

/-- **C9.** The string "05 Jan, 2024 +0530 IST" matches none of the five
listed format patterns, but `parse_pub_date` still accepts it: the source
truncates at the first plus sign, strips whitespace, and retries the
"day month, year" format, so the set of accepted inputs strictly exceeds
the fixed format list. -/
theorem parse_pub_date_fallback_extends :
    parse_pub_date "05 Jan, 2024 +0530 IST" = some ⟨2024, 1, 5, 0, 0, 0, none⟩
    ∧ strptimeFmtA "05 Jan, 2024 +0530 IST" = none
    ∧ strptimeFmtB "05 Jan, 2024 +0530 IST" = none
    ∧ strptimeFmtC "05 Jan, 2024 +0530 IST" = none
    ∧ strptimeFmtD "05 Jan, 2024 +0530 IST" = none
    ∧ pyStrip (pySplitPlusHead "05 Jan, 2024 +0530 IST") = "05 Jan, 2024"
    ∧ strptimeFmtC "05 Jan, 2024" = some ⟨2024, 1, 5, 0, 0, 0, none⟩ := by
  refine ⟨by decide, by decide, by decide, by decide, by decide, by decide, by decide⟩

/-! ### C3: the caller-side PDF test is on the whole URL, not the path -/

/-- **C3 counterexample.** A discovered URL whose path component is
"/viewer" (not ending in ".pdf") but whose query string ends in ".pdf" is
treated as a real PDF link by the caller, contradicting the claim that the
decision is about the path component. -/
theorem pdf_check_counterexample :
    pdfLinkAccepted (some "https://www.sebi.gov.in/viewer?file=.pdf") = true
    ∧ specPathEndsPdf "https://www.sebi.gov.in/viewer?file=.pdf" = false
    ∧ specUrlPath "https://www.sebi.gov.in/viewer?file=.pdf" = "/viewer" := by
  refine ⟨by decide, by decide, by decide⟩

/-- **C3 amended.** The caller treats a discovered inline-frame URL as a
real PDF link exactly when the URL is non-empty and the entire lowercased
URL string ends in ".pdf" (query string included — the check is not on the
path component); any other discovered URL, and a missing one, is treated
the same as "not found". -/
theorem pdfLinkAccepted_iff (o : Option String) :
    pdfLinkAccepted o = true ↔
      ∃ u, o = some u ∧ u ≠ "" ∧ pyEndsWith (pyLowerStr u) ".pdf" = true := by
  cases o with
  | none => simp [pdfLinkAccepted]
  | some u => simp [pdfLinkAccepted, Bool.and_eq_true, bne_iff_ne]

/-! ### C5: descending sort of the filtered output -/

instance : IsTotal FilteredItem (fun a b => b.pub_date_obj ≤ a.pub_date_obj) :=
  ⟨fun a b => le_total b.pub_date_obj a.pub_date_obj⟩

instance : IsTrans FilteredItem (fun a b => b.pub_date_obj ≤ a.pub_date_obj) :=
  ⟨fun _ _ _ hab hbc => le_trans hbc hab⟩

/-- **C5.** The output of `filter_items` is pairwise non-increasing on the
normalised date (newest first); in particular this holds for every
non-empty filtered set. -/
theorem filter_items_sorted_desc (items : List Item) (nowSec localOff : Int)
    (weeks : Nat) :
    (filter_items items nowSec localOff weeks).Sorted
      (fun a b => b.pub_date_obj ≤ a.pub_date_obj) := by
  unfold filter_items sortByDateDesc
  exact List.sorted_insertionSort _ _

/-! ### C1: exact characterisation of the retained records -/

/-- Unfolding of one loop iteration of `filter_items`: a record is kept
with result `f` exactly when its date parses, the normalised date reaches
the cutoff, a keyword matches the title or the description, and `f` is the
copied record with the derived date. -/
theorem keepItem_eq_some_iff (startSec localOff : Int) (it : Item)
    (f : FilteredItem) :
    keepItem startSec localOff it = some f ↔
      ∃ dt, parse_pub_date it.pub_date = some dt
        ∧ startSec ≤ normalizeDt localOff dt
        ∧ (is_keyword_present it.title = true ∨ is_keyword_present it.description = true)
        ∧ f = ⟨it.title, it.link, it.pub_date, it.description,
            normalizeDt localOff dt⟩ := by
  unfold keepItem
  cases h : parse_pub_date it.pub_date with
  | none => simp
  | some dt =>
    simp only [Option.some.injEq, exists_eq_left']
    split_ifs with h1 h2
    · constructor
      · intro hf
        exact hf.elim
      · rintro ⟨hle, -, -⟩
        exact absurd hle (not_le.mpr h1)
    · simp only [Option.some.injEq]
      constructor
      · intro hf
        refine ⟨not_lt.mp h1, ?_, hf.symm⟩
        simpa using h2
      · rintro ⟨-, -, hf⟩
        exact hf.symm
    · constructor
      · intro hf
        exact hf.elim
      · rintro ⟨-, hkw, -⟩
        apply h2
        simpa using hkw

/-- **C1.** Membership in the output of the filtering stage is exactly: the
date string of the record parses, the normalised date is at least the cutoff
(current instant minus the window), and the title or description passes
the keyword filter; the member is the copied record with the derived
date.  Concretely, a record dated exactly at the cutoff is included and
one dated one second older is excluded (inclusive semantics: the source
skips on a strict comparison with the cutoff). -/
theorem filter_items_membership :
    (∀ (items : List Item) (nowSec localOff : Int) (weeks : Nat)
        (f : FilteredItem),
      f ∈ filter_items items nowSec localOff weeks ↔
        ∃ it ∈ items, ∃ dt, parse_pub_date it.pub_date = some dt
          ∧ nowSec - (weeks : Int) * 604800 ≤ normalizeDt localOff dt
          ∧ (is_keyword_present it.title = true
              ∨ is_keyword_present it.description = true)
          ∧ f = ⟨it.title, it.link, it.pub_date, it.description,
              normalizeDt localOff dt⟩)
    ∧ filter_items [⟨"Circular update", "l", "2024-01-01", ""⟩]
        (63839750400 + 3 * 604800) 0 3
        = [⟨"Circular update", "l", "2024-01-01", "", 63839750400⟩]
    ∧ filter_items [⟨"Circular update", "l", "2024-01-01", ""⟩]
        (63839750400 + 3 * 604800 + 1) 0 3 = [] := by
  refine ⟨?_, by decide, by decide⟩
  intro items nowSec localOff weeks f
  unfold filter_items sortByDateDesc
  simp only [List.mem_insertionSort, List.mem_filterMap]
  constructor
  · rintro ⟨it, hit, hk⟩
    obtain ⟨dt, h1, h2, h3, h4⟩ := (keepItem_eq_some_iff _ _ _ _).mp hk
    exact ⟨it, hit, dt, h1, h2, h3, h4⟩
  · rintro ⟨it, hit, dt, h1, h2, h3, h4⟩
    exact ⟨it, hit, (keepItem_eq_some_iff _ _ _ _).mpr ⟨dt, h1, h2, h3, h4⟩⟩

/-! ### C6: the feed parser returns one record per item, in order -/

/-- **C6.** For every document, the parser returns exactly as many records
as there are channel/item elements, the record at every index is built
from the item at the same index (document order), and each of the four
fields defaults to the empty string when the sub-element is absent. -/
theorem parse_sebi_feed_spec :
    (∀ root : XmlElem, (parse_sebi_feed root).length = (itemsOf root).length)
    ∧ (∀ (root : XmlElem) (i : Nat),
        (parse_sebi_feed root)[i]? = ((itemsOf root)[i]?).map itemToRecord)
    ∧ (∀ e : XmlElem, e.children.find? (fun c => c.tag == "title") = none →
        (itemToRecord e).title = "")
    ∧ (∀ e : XmlElem, e.children.find? (fun c => c.tag == "link") = none →
        (itemToRecord e).link = "")
    ∧ (∀ e : XmlElem, e.children.find? (fun c => c.tag == "pubDate") = none →
        (itemToRecord e).pub_date = "")
    ∧ (∀ e : XmlElem, e.children.find? (fun c => c.tag == "description") = none →
        (itemToRecord e).description = "") := by
  refine ⟨?_, ?_, ?_, ?_, ?_, ?_⟩
  · intro root
    simp [parse_sebi_feed]
  · intro root i
    simp [parse_sebi_feed]
  · intro e h
    simp [itemToRecord, findtext, h]
  · intro e h
    simp [itemToRecord, findtext, h]
  · intro e h
    simp [itemToRecord, findtext, h]
  · intro e h
    simp [itemToRecord, findtext, h]

/-- Witness for C6 at a concrete document: one channel with one item that
carries only a title, plus a detached childless item element for the
default cases. -/
theorem parse_sebi_feed_spec_witness :
    ((parse_sebi_feed (XmlElem.node "rss" none [XmlElem.node "channel" none
        [XmlElem.node "item" none [XmlElem.node "title" (some "T") []]]])).length
      = (itemsOf (XmlElem.node "rss" none [XmlElem.node "channel" none
        [XmlElem.node "item" none [XmlElem.node "title" (some "T") []]]])).length)
    ∧ (parse_sebi_feed (XmlElem.node "rss" none [XmlElem.node "channel" none
        [XmlElem.node "item" none [XmlElem.node "title" (some "T") []]]]))[0]?
      = ((itemsOf (XmlElem.node "rss" none [XmlElem.node "channel" none
        [XmlElem.node "item" none [XmlElem.node "title" (some "T") []]]]))[0]?).map
          itemToRecord
    ∧ (itemToRecord (XmlElem.node "item" none [])).title = ""
    ∧ (itemToRecord (XmlElem.node "item" none [])).link = ""
    ∧ (itemToRecord (XmlElem.node "item" none [])).pub_date = ""
    ∧ (itemToRecord (XmlElem.node "item" none [])).description = "" := by
  obtain ⟨h1, h2, h3, h4, h5, h6⟩ := parse_sebi_feed_spec
  exact ⟨h1 _, h2 _ 0, h3 _ rfl, h4 _ rfl, h5 _ rfl, h6 _ rfl⟩

/-! ### C7: the PDF discoverer swallows failures -/

/-- **C7.** Any fetch or parse failure inside `extract_pdf_from_iframe`
gives `none` (the exception handler covers the whole body), and a fetched
page containing no inline-frame element with a `src` attribute also gives
`none`. -/
theorem extract_pdf_failure_none :
    (∀ (join : String → String → String) (pageUrl : String),
      extract_pdf_from_iframe join pageUrl .failure = none)
    ∧ (∀ (join : String → String → String) (pageUrl : String)
        (tags : List HtmlTag),
        (∀ t ∈ tags, ¬(t.name = "iframe" ∧ t.src.isSome = true)) →
          extract_pdf_from_iframe join pageUrl (.success tags) = none) := by
  constructor
  · intro join pageUrl
    rfl
  · intro join pageUrl tags h
    have hnone : tags.find? (fun t => t.name == "iframe" && t.src.isSome) = none := by
      rw [List.find?_eq_none]
      intro t ht hc
      rw [Bool.and_eq_true] at hc
      exact h t ht ⟨by simpa using hc.1, hc.2⟩
    simp only [extract_pdf_from_iframe, hnone]

/-- Witness for C7: a failed fetch, and a page whose only inline-frame
carries no source attribute. -/
theorem extract_pdf_failure_none_witness :
    extract_pdf_from_iframe (fun _ s => s) "https://example.org" .failure = none
    ∧ extract_pdf_from_iframe (fun _ s => s) "https://example.org"
        (.success [⟨"iframe", none⟩, ⟨"div", some "x.pdf"⟩]) = none := by
  refine ⟨extract_pdf_failure_none.1 _ _, extract_pdf_failure_none.2 _ _ _ ?_⟩
  decide

/-! ### C8: the filtering stage does not mutate its input records -/

/-- The loop of the store-level `filter_items` only ever appends fresh
cells to the heap, and every reference it returns points at one of those
fresh cells. -/
theorem filterLoop_frame (startSec localOff : Int) :
    ∀ (refs : List Nat) (σ : List PyDict),
      (∃ ext, (filterLoop startSec localOff refs σ).2 = σ ++ ext)
      ∧ ∀ r ∈ (filterLoop startSec localOff refs σ).1, σ.length ≤ r := by
  intro refs
  induction refs with
  | nil =>
    intro σ
    exact ⟨⟨[], by simp [filterLoop]⟩, by simp [filterLoop]⟩
  | cons r rest ih =>
    intro σ
    simp only [filterLoop]
    cases hp : parse_pub_date (dictGetStr (σ.getD r []) "pub_date") with
    | none => exact ih σ
    | some dt =>
      by_cases h1 : normalizeDt localOff dt
          < startSec
      · simp only [if_pos h1]
        exact ih σ
      · by_cases h2 : (is_keyword_present (dictGetStr (σ.getD r []) "title")
            || is_keyword_present (dictGetStr (σ.getD r []) "description")) = true
        · simp only [if_neg h1, if_pos h2]
          obtain ⟨⟨ext, hext⟩, hfresh⟩ := ih (σ ++
            [dictSet (σ.getD r []) "pub_date_obj" (.vdt (normalizeDt localOff dt))])
          refine ⟨⟨_, by rw [hext, List.append_assoc]⟩, ?_⟩
          intro x hx
          rw [List.mem_cons] at hx
          rcases hx with hx | hx
          · omega
          · have := hfresh x hx
            rw [List.length_append] at this
            omega
        · simp only [if_neg h1, if_neg h2]
          exact ih σ

/-- **C8.** The store-level `filter_items` leaves every input heap cell —
in particular every input record dictionary — unchanged, and every
reference it returns is fresh (allocated by `item.copy()` past the end of
the input heap), so the derived `pub_date_obj` key is added only to fresh
copies. -/
theorem filter_items_st_frame (refs : List Nat) (σ : List PyDict)
    (nowSec localOff : Int) (weeks : Nat) :
    (∀ i, i < σ.length →
      ((filter_items_st refs σ nowSec localOff weeks).2)[i]? = σ[i]?)
    ∧ (∀ r ∈ (filter_items_st refs σ nowSec localOff weeks).1, σ.length ≤ r) := by
  obtain ⟨⟨ext, hext⟩, hfresh⟩ :=
    filterLoop_frame (nowSec - (weeks : Int) * 604800) localOff refs σ
  constructor
  · intro i hi
    show ((filterLoop (nowSec - (weeks : Int) * 604800) localOff refs σ).2)[i]?
      = σ[i]?
    rw [hext]
    exact List.getElem?_append_left hi
  · intro x hx
    simp only [filter_items_st, List.mem_insertionSort] at hx
    exact hfresh x hx

/-- A concrete record dictionary for the C8 witness. -/
def sampleSebiDict : PyDict :=
  [("title", .vstr "Circular update"), ("link", .vstr "l"),
   ("pub_date", .vstr "2024-01-01"), ("description", .vstr "")]

/-- Witness for C8: one kept record; its input cell is unchanged and the
returned reference is the fresh cell 1. -/
theorem filter_items_st_frame_witness :
    ((filter_items_st [0] [sampleSebiDict] (63839750400 + 3 * 604800) 0 3).2)[0]?
      = [sampleSebiDict][0]?
    ∧ [sampleSebiDict].length ≤ 1 := by
  refine ⟨(filter_items_st_frame [0] [sampleSebiDict]
      (63839750400 + 3 * 604800) 0 3).1 0 (by decide),
    (filter_items_st_frame [0] [sampleSebiDict]
      (63839750400 + 3 * 604800) 0 3).2 1 ?_⟩
  decide

end SebiRss
